import Mathlib

/-!
Shallow embedding of the `congol` crate (Conway's Game of Life):
`src/universe.rs` (the `Universe` grid engine) and `src/lib.rs`
(the `Game` driver and the transition rule), together with theorems
checking the natural-language specification against this embedding.

Modelling conventions:
* `usize` is modelled as `Nat`, `isize` as `Int`; `x as isize` is the
  coercion `(x : Int)` and `y as usize` (on a known-nonnegative `isize`)
  is `Int.toNat`.
* `Vec<bool>` is `List Bool`; `Vec::get` is `List.getElem?` (`l[i]?`).
* A Rust panic (`unwrap` on `None`) is modelled as `Option.none`
  propagated through the computation.
-/

namespace Congol

/-- The `Universe` struct of `src/universe.rs`: a `width` x `height`
grid of cells stored in a flat vector. -/
structure Universe where
  width : Nat
  height : Nat
  cells : List Bool
deriving DecidableEq, Repr

namespace Universe

/-- Embeds `Universe::new(width, height)`: all cells dead, flat vector of
length `width * height`. -/
def new (width height : Nat) : Universe :=
  { width := width, height := height
    cells := List.replicate (width * height) false }

/-- Embeds `Universe::get(x, y)`: returns `none` when `x < 0 || y < 0`,
otherwise looks up flat index `(y as usize) * width + (x as usize)`
in the cell vector (`Vec::get`, which returns `None` past the end). -/
def get (u : Universe) (x y : Int) : Option Bool :=
  if x < 0 ∨ y < 0 then none
  else u.cells[y.toNat * u.width + x.toNat]?

/-- Embeds `Universe::set(x, y, value)`: writes flat index `y * width + x`
through `Vec::get_mut(..).unwrap()`; the `unwrap` panics (modelled as
`none`) exactly when the flat index is out of range of the vector. -/
def set (u : Universe) (x y : Nat) (value : Bool) : Option Universe :=
  if y * u.width + x < u.cells.length then
    some { u with cells := u.cells.set (y * u.width + x) value }
  else none

/-- The eight Moore-neighbourhood offsets in the order the nested loops
of `Universe::count_neighbors` visit them (outer `i` over the x offset,
inner `j` over the y offset, skipping `(0, 0)`). -/
def neighborOffsets : List (Int × Int) :=
  [(-1, -1), (-1, 0), (-1, 1), (0, -1), (0, 1), (1, -1), (1, 0), (1, 1)]

/-- Embeds `Universe::count_neighbors(x, y)`: for each of the eight offsets,
reads `get(x + i, y + j)` treating `None` as dead, and counts the live
results. -/
def count_neighbors (u : Universe) (x y : Nat) : Nat :=
  (neighborOffsets.map (fun p =>
    (u.get ((x : Int) + p.1) ((y : Int) + p.2)).getD false)).count true

end Universe

/-- The `UniverseIterator` struct of `src/universe.rs`: a borrowed
universe (field `universe` in the source; `universe` is a Lean keyword,
so the field is called `univ` here) together with the current flat
index. -/
structure UniverseIterator where
  univ : Universe
  index : Nat
deriving DecidableEq, Repr

namespace UniverseIterator

/-- Embeds `UniverseIterator::next`: while `index < cells.len()`, yields
`(index % width, index / width, get(x, y).unwrap())` and increments
`index`; afterwards it increments `index` and yields `None`.  The
`unwrap` is modelled by `Option.map`: a failing `get` would surface as
a missing item. -/
def next (it : UniverseIterator) : Option (Nat × Nat × Bool) × UniverseIterator :=
  if it.index < it.univ.cells.length then
    let x := it.index % it.univ.width
    let y := it.index / it.univ.width
    ((it.univ.get (x : Int) (y : Int)).map (fun b => (x, y, b)),
      ⟨it.univ, it.index + 1⟩)
  else
    (none, ⟨it.univ, it.index + 1⟩)

end UniverseIterator

/-- Collects the items produced by repeatedly calling
`UniverseIterator.next`, with explicit fuel; stops at the first `none`. -/
def collectIter : UniverseIterator → Nat → List (Nat × Nat × Bool)
  | _, 0 => []
  | it, fuel + 1 =>
    match it.next with
    | (some item, it') => item :: collectIter it' fuel
    | (none, _) => []

namespace Universe

/-- Embeds `Universe::iter()`: starts a `UniverseIterator` at index 0; the
sequence it produces is the collected items (the iterator is exhausted
after `cells.len()` successful steps). -/
def iterList (u : Universe) : List (Nat × Nat × Bool) :=
  collectIter ⟨u, 0⟩ u.cells.length

end Universe

/-- Embeds `format_cell(cell, i, width)` of `src/universe.rs`: `"X"` for a
live cell, `" "` for a dead one, with `"\n"` appended when
`(i + 1) % width == 0`. -/
def format_cell (cell : Bool) (i : Nat) (width : Nat) : List Char :=
  let cell_string : List Char := if cell then ['X'] else [' ']
  if (i + 1) % width = 0 then cell_string ++ ['\n'] else cell_string

namespace Universe

/-- The `Display` instance for `Universe`: maps `format_cell` over the
enumerated cell vector and concatenates the pieces. -/
def render (u : Universe) : List Char :=
  (u.cells.enum.map (fun p => format_cell p.2 p.1 u.width)).flatten

end Universe

/-- Embeds `determine_new_state(is_cell_alive, neighbor_count)` of
`src/lib.rs`: the per-cell transition rule. -/
def determine_new_state (is_cell_alive : Bool) (neighbor_count : Nat) : Bool :=
  if is_cell_alive then
    match neighbor_count with
    | 0 | 1 => false
    | 2 | 3 => true
    | _ => false
  else
    match neighbor_count with
    | 3 => true
    | _ => false

namespace Game

/-- Embeds `Game::next_generation()`: clones the universe, iterates the clone,
and for each `(x, y, cell)` writes
`determine_new_state(cell, previous.count_neighbors(x, y))` into the
live universe via `set`.  A panic in `set` propagates as `none`. -/
def next_generation (u : Universe) : Option Universe :=
  (u.iterList).foldlM
    (fun cur item =>
      cur.set item.1 item.2.1
        (determine_new_state item.2.2 (u.count_neighbors item.1 item.2.1)))
    u

end Game

/-! ### Helper lemmas: `get` at in-range coordinates and the iterator -/

/-- Reading `get` at nonnegative coordinates is a flat-vector lookup. -/
theorem Universe.get_natCast (u : Universe) (x y : Nat) :
    u.get (x : Int) (y : Int) = u.cells[y * u.width + x]? := by
  unfold Universe.get
  rw [if_neg]
  · simp
  · push_neg
    exact ⟨Int.natCast_nonneg x, Int.natCast_nonneg y⟩

/-- Reading `get` at the coordinates the iterator derives from flat index `k`
is the lookup of flat index `k` itself. -/
theorem Universe.get_of_index (u : Universe) (k : Nat) :
    u.get ((k % u.width : Nat) : Int) ((k / u.width : Nat) : Int) = u.cells[k]? := by
  rw [Universe.get_natCast]
  congr 1
  rw [Nat.mul_comm (k / u.width) u.width]
  exact Nat.div_add_mod k u.width

/-- One successful step of the iterator. -/
theorem UniverseIterator.next_of_lt (u : Universe) (k : Nat)
    (hk : k < u.cells.length) :
    UniverseIterator.next ⟨u, k⟩ =
      (some (k % u.width, k / u.width, u.cells.getD k false), ⟨u, k + 1⟩) := by
  unfold UniverseIterator.next
  simp only [hk, if_pos, Universe.get_of_index]
  rw [List.getElem?_eq_getElem hk, List.getD_eq_getElem u.cells false hk]
  rfl

/-- Collecting `n` items from index `k` (with `k + n` the vector
length) yields the flat indices `k, k+1, ...` decoded to coordinates. -/
theorem collectIter_eq (u : Universe) :
    ∀ n k, k + n = u.cells.length →
      collectIter ⟨u, k⟩ n =
        (List.range' k n).map
          (fun i => (i % u.width, i / u.width, u.cells.getD i false)) := by
  intro n
  induction n with
  | zero => intro k _; rfl
  | succ n ih =>
    intro k h
    have hk : k < u.cells.length := by omega
    rw [List.range'_succ, List.map_cons]
    show (match UniverseIterator.next ⟨u, k⟩ with
      | (some item, it') => item :: collectIter it' n
      | (none, _) => []) = _
    rw [UniverseIterator.next_of_lt u k hk]
    dsimp only
    rw [ih (k + 1) (by omega)]

/-- Characterization: `iter()` produces the row-major sequence of all flat indices with
their coordinates and cell states. -/
theorem Universe.iterList_eq (u : Universe) :
    u.iterList =
      (List.range u.cells.length).map
        (fun i => (i % u.width, i / u.width, u.cells.getD i false)) := by
  rw [Universe.iterList, List.range_eq_range']
  exact collectIter_eq u u.cells.length 0 (by omega)

/-! ### Helper lemmas: characterizing `Game::next_generation` -/

/-- Derived description of the state the sweep writes for the cell at
flat index `i`: the rule applied to the snapshot's cell and the
snapshot's neighbor count. -/
def nextCell (u : Universe) (i : Nat) : Bool :=
  determine_new_state (u.cells.getD i false)
    (u.count_neighbors (i % u.width) (i / u.width))

/-- Derived description of the sweep's writes: overwrite indices
`k, k+1, ..., k+n-1` of `cs` in turn with `nextCell`. -/
def applyFrom (u : Universe) (cs : List Bool) (k : Nat) : Nat → List Bool
  | 0 => cs
  | n + 1 => applyFrom u (cs.set k (nextCell u k)) (k + 1) n

theorem applyFrom_length (u : Universe) :
    ∀ n k cs, (applyFrom u cs k n).length = cs.length := by
  intro n
  induction n with
  | zero => intro k cs; rfl
  | succ n ih =>
    intro k cs
    rw [applyFrom, ih, List.length_set]

theorem applyFrom_getElem (u : Universe) :
    ∀ n k (cs : List Bool) (j : Nat),
      (applyFrom u cs k n)[j]? =
        if k ≤ j ∧ j < k + n ∧ j < cs.length then some (nextCell u j)
        else cs[j]? := by
  intro n
  induction n with
  | zero =>
    intro k cs j
    rw [applyFrom, if_neg]
    omega
  | succ n ih =>
    intro k cs j
    rw [applyFrom, ih, List.length_set]
    by_cases hjk : j = k
    · subst hjk
      by_cases hj : j < cs.length
      · rw [if_neg (by omega), if_pos (by omega)]
        exact List.getElem?_set_eq_of_lt _ hj
      · rw [if_neg (by omega), if_neg (by omega)]
        rw [List.set_eq_of_length_le (by omega)]
    · rw [List.getElem?_set_ne (by omega)]
      by_cases hcond : k ≤ j ∧ j < k + (n + 1) ∧ j < cs.length
      · rw [if_pos (by omega), if_pos hcond]
      · rw [if_neg (by omega), if_neg hcond]

/-- The monadic fold of the sweep over the items starting at flat index
`k` succeeds and performs exactly the `applyFrom` overwrites. -/
theorem foldlM_sweep (u : Universe) :
    ∀ n k (cs : List Bool), cs.length = u.cells.length →
      k + n = u.cells.length →
      List.foldlM
        (fun (cur : Universe) (item : Nat × Nat × Bool) =>
          cur.set item.1 item.2.1
            (determine_new_state item.2.2 (u.count_neighbors item.1 item.2.1)))
        (⟨u.width, u.height, cs⟩ : Universe)
        ((List.range' k n).map
          (fun i => (i % u.width, i / u.width, u.cells.getD i false))) =
      some ⟨u.width, u.height, applyFrom u cs k n⟩ := by
  intro n
  induction n with
  | zero => intro k cs _ _; rfl
  | succ n ih =>
    intro k cs hc h
    have hk : k < cs.length := by omega
    rw [List.range'_succ, List.map_cons, List.foldlM_cons]
    have hset : (⟨u.width, u.height, cs⟩ : Universe).set (k % u.width) (k / u.width)
        (determine_new_state (u.cells.getD k false)
          (u.count_neighbors (k % u.width) (k / u.width))) =
        some ⟨u.width, u.height, cs.set k (nextCell u k)⟩ := by
      unfold Universe.set
      have hidx : k / u.width * u.width + k % u.width = k := by
        rw [Nat.mul_comm (k / u.width) u.width]
        exact Nat.div_add_mod k u.width
      rw [if_pos]
      · rw [nextCell]
        simp only [hidx]
      · simp only [hidx]
        exact hk
    dsimp only
    rw [hset]
    show List.foldlM _ (⟨u.width, u.height, cs.set k (nextCell u k)⟩ : Universe) _ = _
    rw [applyFrom, ih (k + 1) (cs.set k (nextCell u k)) (by rw [List.length_set]; omega)
      (by omega)]

/-- Characterization: `next_generation` always succeeds and produces exactly the
`applyFrom` overwrite of every flat index. -/
theorem next_generation_eq (u : Universe) :
    Game.next_generation u =
      some ⟨u.width, u.height, applyFrom u u.cells 0 u.cells.length⟩ := by
  rw [Game.next_generation, Universe.iterList_eq, List.range_eq_range']
  exact foldlM_sweep u u.cells.length 0 u.cells rfl (by omega)

/-! ### Helper lemmas: flat index arithmetic -/

theorem index_mod (W x y : Nat) (hx : x < W) : (y * W + x) % W = x := by
  rw [Nat.mul_comm y W, Nat.mul_add_mod]
  exact Nat.mod_eq_of_lt hx

theorem index_div (W x y : Nat) (hx : x < W) : (y * W + x) / W = y := by
  rw [Nat.mul_comm y W, Nat.mul_add_div (by omega)]
  rw [Nat.div_eq_of_lt hx]
  omega

theorem index_lt (W H x y : Nat) (hx : x < W) (hy : y < H) :
    y * W + x < W * H := by
  have h1 : y * W + x < (y + 1) * W := by
    rw [Nat.succ_mul]
    omega
  have h2 : (y + 1) * W ≤ H * W := Nat.mul_le_mul_right W (by omega)
  rw [Nat.mul_comm W H]
  omega

/-- A sample universe: a full 2x2 grid (a 2x2 block of live cells whose
corner sits at the origin). -/
def uBlock22 : Universe := ⟨2, 2, [true, true, true, true]⟩

/-- C4: the driver `next_generation()` snapshots the universe before mutating it:
the sweep succeeds and the state written at flat index `y*width + x`
equals the transition rule applied to that cell's pre-tick state and
the neighbor count computed on the pre-tick universe, so the new
generation is a pure function of the prior one. -/
theorem next_generation_uses_snapshot (u : Universe)
    (hlen : u.cells.length = u.width * u.height) :
    ∃ u', Game.next_generation u = some u' ∧
      ∀ x y, x < u.width → y < u.height →
        u'.cells[y * u.width + x]? =
          some (determine_new_state (u.cells.getD (y * u.width + x) false)
            (u.count_neighbors x y)) := by
  refine ⟨_, next_generation_eq u, ?_⟩
  intro x y hx hy
  have hj : y * u.width + x < u.cells.length := by
    rw [hlen]
    exact index_lt u.width u.height x y hx hy
  rw [applyFrom_getElem, if_pos (by omega)]
  rw [nextCell, index_mod u.width x y hx, index_div u.width x y hx]

/-- Witness for C4 at the concrete 2x2 universe. -/
theorem next_generation_uses_snapshot_witness :
    uBlock22.cells.length = uBlock22.width * uBlock22.height ∧
    (∃ u', Game.next_generation uBlock22 = some u' ∧
      ∀ x y, x < uBlock22.width → y < uBlock22.height →
        u'.cells[y * uBlock22.width + x]? =
          some (determine_new_state (uBlock22.cells.getD (y * uBlock22.width + x) false)
            (uBlock22.count_neighbors x y))) :=
  ⟨by decide, next_generation_uses_snapshot uBlock22 (by decide)⟩

/-- C10: with positive dimensions the sweep is total: `next_generation`
never reaches the out-of-bounds panic in `set`, and the `unwrap` on
`get` inside the iterator never fails (every coordinate the traversal
produces is a valid flat index). -/
theorem next_generation_total (u : Universe)
    (_hW : 0 < u.width) (_hH : 0 < u.height) :
    (Game.next_generation u).isSome = true ∧
    ∀ k, k < u.cells.length →
      (u.get ((k % u.width : Nat) : Int) ((k / u.width : Nat) : Int)).isSome = true := by
  constructor
  · rw [next_generation_eq]
    rfl
  · intro k hk
    rw [Universe.get_of_index, List.getElem?_eq_getElem hk]
    rfl

/-- Witness for C10 at the concrete 2x2 universe. -/
theorem next_generation_total_witness :
    0 < uBlock22.width ∧ 0 < uBlock22.height ∧
    ((Game.next_generation uBlock22).isSome = true ∧
      ∀ k, k < uBlock22.cells.length →
        (uBlock22.get ((k % uBlock22.width : Nat) : Int)
          ((k / uBlock22.width : Nat) : Int)).isSome = true) :=
  ⟨by decide, by decide, next_generation_total uBlock22 (by decide) (by decide)⟩

/-- C9: the representation invariant (`cells.length = width * height`,
cell `(x, y)` at flat index `y*width + x`) is established by `new` and
preserved by `set` and `next_generation`, and the dimensions never
change. -/
theorem invariants_preserved (u : Universe)
    (hlen : u.cells.length = u.width * u.height) :
    (∀ W H, (Universe.new W H).width = W ∧ (Universe.new W H).height = H ∧
      (Universe.new W H).cells.length = W * H) ∧
    (∀ (x y : Nat) (v : Bool) (u' : Universe), u.set x y v = some u' →
      u'.width = u.width ∧ u'.height = u.height ∧
      u'.cells.length = u'.width * u'.height ∧
      u'.cells[y * u.width + x]? = some v) ∧
    (∀ u' : Universe, Game.next_generation u = some u' →
      u'.width = u.width ∧ u'.height = u.height ∧
      u'.cells.length = u'.width * u'.height) := by
  refine ⟨?_, ?_, ?_⟩
  · intro W H
    exact ⟨rfl, rfl, List.length_replicate (W * H) false⟩
  · intro x y v u' h
    rw [Universe.set] at h
    by_cases hidx : y * u.width + x < u.cells.length
    · rw [if_pos hidx] at h
      injection h with h
      subst h
      refine ⟨rfl, rfl, ?_, List.getElem?_set_eq_of_lt v hidx⟩
      simpa using hlen
    · rw [if_neg hidx] at h
      exact absurd h (by simp)
  · intro u' h
    rw [next_generation_eq] at h
    injection h with h
    subst h
    exact ⟨rfl, rfl, by simpa [applyFrom_length] using hlen⟩

/-- Witness for C9 at the concrete 2x2 universe. -/
theorem invariants_preserved_witness :
    uBlock22.cells.length = uBlock22.width * uBlock22.height ∧
    ((∀ W H, (Universe.new W H).width = W ∧ (Universe.new W H).height = H ∧
      (Universe.new W H).cells.length = W * H) ∧
    (∀ (x y : Nat) (v : Bool) (u' : Universe), uBlock22.set x y v = some u' →
      u'.width = uBlock22.width ∧ u'.height = uBlock22.height ∧
      u'.cells.length = u'.width * u'.height ∧
      u'.cells[y * uBlock22.width + x]? = some v) ∧
    (∀ u' : Universe, Game.next_generation uBlock22 = some u' →
      u'.width = uBlock22.width ∧ u'.height = uBlock22.height ∧
      u'.cells.length = u'.width * u'.height)) :=
  ⟨by decide, invariants_preserved uBlock22 (by decide)⟩

/-- C6: the traversal `iter()` yields exactly `width * height` items; the item at
position `y*width + x` is `(x, y, state of cell (x, y))`, so every
in-range coordinate pair appears exactly once, in row-major order of
ascending flat index; the coordinate pairs are pairwise distinct; and
advancing an iterator never mutates the underlying universe. -/
theorem iter_row_major (u : Universe)
    (hlen : u.cells.length = u.width * u.height) :
    u.iterList.length = u.width * u.height ∧
    (∀ x y, x < u.width → y < u.height →
      u.iterList[y * u.width + x]? =
        some (x, y, u.cells.getD (y * u.width + x) false)) ∧
    (u.iterList.map (fun t => (t.1, t.2.1))).Nodup ∧
    (∀ it : UniverseIterator, it.next.2.univ = it.univ) := by
  refine ⟨?_, ?_, ?_, ?_⟩
  · rw [Universe.iterList_eq, List.length_map, List.length_range, hlen]
  · intro x y hx hy
    have hj : y * u.width + x < u.cells.length := by
      rw [hlen]
      exact index_lt u.width u.height x y hx hy
    rw [Universe.iterList_eq, List.getElem?_map, List.getElem?_range hj]
    simp [index_mod u.width x y hx, index_div u.width x y hx]
  · rw [Universe.iterList_eq, List.map_map]
    have hinj : Function.Injective
        (fun i : Nat => (i % u.width, i / u.width)) := by
      intro i j hij
      have h1 : i % u.width = j % u.width := congrArg Prod.fst hij
      have h2 : i / u.width = j / u.width := congrArg Prod.snd hij
      have hi := Nat.div_add_mod i u.width
      have hj := Nat.div_add_mod j u.width
      rw [h1, h2] at hi
      omega
    have : ((fun t : Nat × Nat × Bool => (t.1, t.2.1)) ∘
        (fun i => (i % u.width, i / u.width, u.cells.getD i false))) =
        fun i : Nat => (i % u.width, i / u.width) := rfl
    rw [this]
    exact (List.nodup_range _).map hinj
  · intro it
    rw [UniverseIterator.next]
    by_cases h : it.index < it.univ.cells.length
    · rw [if_pos h]
    · rw [if_neg h]

/-- Witness for C6 at the concrete 2x2 universe. -/
theorem iter_row_major_witness :
    uBlock22.cells.length = uBlock22.width * uBlock22.height ∧
    (uBlock22.iterList.length = uBlock22.width * uBlock22.height ∧
    (∀ x y, x < uBlock22.width → y < uBlock22.height →
      uBlock22.iterList[y * uBlock22.width + x]? =
        some (x, y, uBlock22.cells.getD (y * uBlock22.width + x) false)) ∧
    (uBlock22.iterList.map (fun t => (t.1, t.2.1))).Nodup ∧
    (∀ it : UniverseIterator, it.next.2.univ = it.univ)) :=
  ⟨by decide, iter_row_major uBlock22 (by decide)⟩

/-- C3: over all 18 combinations of cell state and neighbor count in
`0..8`, `determine_new_state` is live next exactly for a live cell with
2 or 3 neighbors or a dead cell with exactly 3 neighbors. -/
theorem determine_new_state_table (s : Bool) (n : Nat) (hn : n ≤ 8) :
    determine_new_state s n = true ↔
      ((s = true ∧ (n = 2 ∨ n = 3)) ∨ (s = false ∧ n = 3)) := by
  interval_cases n <;> cases s <;> decide

/-- Witness for C3 at a concrete state and count. -/
theorem determine_new_state_table_witness :
    (3 : Nat) ≤ 8 ∧
    (determine_new_state false 3 = true ↔
      ((false = true ∧ ((3 : Nat) = 2 ∨ (3 : Nat) = 3)) ∨
        (false = false ∧ (3 : Nat) = 3))) :=
  ⟨by decide, determine_new_state_table false 3 (by decide)⟩

/-! ### Spec-side reference definitions and divergence theorems -/

/-- Following the spec's words (a reference definition, deliberately
not taken from the source): the number of live cells among the eight
Moore-neighborhood positions of `(x, y)` that lie inside
`[0, width) x [0, height)`; off-grid positions contribute nothing. -/
def specNeighborCount (u : Universe) (x y : Nat) : Nat :=
  (Universe.neighborOffsets.filter (fun p =>
    decide (0 ≤ (x : Int) + p.1) && decide ((x : Int) + p.1 < (u.width : Int)) &&
    decide (0 ≤ (y : Int) + p.2) && decide ((y : Int) + p.2 < (u.height : Int)) &&
    u.cells.getD (((y : Int) + p.2).toNat * u.width + ((x : Int) + p.1).toNat)
      false)).length

/-- Following the spec's words: `(x, y)` is in bounds when
`0 <= x < width` and `0 <= y < height`. -/
def specInBounds (u : Universe) (x y : Int) : Prop :=
  0 ≤ x ∧ x < (u.width : Int) ∧ 0 ≤ y ∧ y < (u.height : Int)

instance (u : Universe) (x y : Int) : Decidable (specInBounds u x y) := by
  unfold specInBounds
  infer_instance

/-- A sample universe: 2x2 grid whose only live cell is `(0, 1)`. -/
def uCell01 : Universe := ⟨2, 2, [false, false, true, false]⟩

/-- C1 (divergence): on the 2x2 universe whose only live cell is
`(0, 1)`, the in-bounds cell `(1, 0)` has exactly one live in-grid
Moore neighbor, but `count_neighbors(1, 0)` returns 2: the read at
off-grid position `(2, 0)` lands on flat index 2, i.e. the live cell
`(0, 1)` of the next row, instead of counting as dead. -/
theorem count_neighbors_counts_offgrid :
    uCell01.count_neighbors 1 0 = 2 ∧ specNeighborCount uCell01 1 0 = 1 ∧
    1 < uCell01.width ∧ 0 < uCell01.height := by
  decide

/-- C2 (divergence): calling `get(2, 0)` on a 2x2 universe is out of range
(`x = width`), yet the code returns the present value of cell `(0, 1)`
(flat index 2) rather than absent. -/
theorem get_out_of_range_present :
    uCell01.get 2 0 = some true ∧ ¬ specInBounds uCell01 2 0 := by
  decide

/-- C5 (divergence): calling `set(2, 0, true)` on an all-dead 2x2 universe is
out of bounds (`x = width`), yet it neither panics nor leaves the grid
unchanged: it silently writes flat index 2, i.e. cell `(0, 1)`. -/
theorem set_out_of_bounds_silent :
    (Universe.new 2 2).set 2 0 true = some uCell01 ∧
    ¬ specInBounds (Universe.new 2 2) 2 0 := by
  decide

/-- C8 (divergence): the 2x2 universe that is exactly a 2x2 block of
live cells at `(0, 0)` (all four coordinates in bounds) is not a fixed
point of `next_generation`: the sweep kills the right column, because
`count_neighbors` at `x = 1` reads the wrapped flat indices of column
0 as extra neighbors. -/
theorem block_not_still_life :
    Game.next_generation uBlock22 =
      some ⟨2, 2, [true, false, true, false]⟩ ∧
    Game.next_generation uBlock22 ≠ some uBlock22 := by
  decide

/-! ### Helper lemmas: rendering -/

/-- The character a cell renders to. -/
def cellChar (b : Bool) : Char := if b then 'X' else ' '

/-- Following the spec's words (a reference definition, deliberately
not taken from the source): each row is `width` cell characters (`X`
alive, space dead, in row-major position) followed by one newline,
including after the final row. -/
def renderSpec (u : Universe) : List Char :=
  (List.range u.height).flatMap (fun y =>
    (List.range u.width).map
      (fun x => cellChar (u.cells.getD (y * u.width + x) false)) ++ ['\n'])

theorem map_getD_range (l : List Bool) (f : Bool → Char) :
    l.map f = (List.range l.length).map (fun i => f (l.getD i false)) := by
  apply List.ext_getElem (by simp)
  intro i h1 h2
  simp only [List.getElem_map, List.getElem_range]
  congr 1
  exact (List.getD_eq_getElem l false (by simpa using h1)).symm

/-- Rendering one row: a nonempty suffix `r` of a row, starting `t`
cells in (so it ends exactly at a row boundary), renders to its cell
characters followed by one newline. -/
theorem row_render (W : Nat) :
    ∀ (r : List Bool) (q t : Nat), t + r.length = W → r ≠ [] →
      ((List.enumFrom (q * W + t) r).map
        (fun p => format_cell p.2 p.1 W)).flatten
        = r.map cellChar ++ ['\n'] := by
  intro r
  induction r with
  | nil => intro q t _ hne; exact absurd rfl hne
  | cons a r ih =>
    intro q t hlen _
    match r with
    | [] =>
      have hW1 : t + 1 = W := by simpa using hlen
      have hmod : (q * W + t + 1) % W = 0 := by
        have harg : q * W + t + 1 = (q + 1) * W := by
          rw [Nat.add_mul]
          omega
        rw [harg, Nat.mul_mod_left]
      show format_cell a (q * W + t) W ++ [] = [a].map cellChar ++ ['\n']
      cases a <;> simp [format_cell, hmod, cellChar]
    | b :: r' =>
      have ht : t + 1 < W := by
        simp only [List.length_cons] at hlen
        omega
      have hmod : (q * W + t + 1) % W ≠ 0 := by
        have harg : q * W + t + 1 = (t + 1) + q * W := by omega
        rw [harg, Nat.add_mul_mod_self_right, Nat.mod_eq_of_lt ht]
        omega
      show format_cell a (q * W + t) W ++
        ((List.enumFrom (q * W + t + 1) (b :: r')).map
          (fun p => format_cell p.2 p.1 W)).flatten = _
      have harg : q * W + t + 1 = q * W + (t + 1) := by omega
      rw [harg, ih q (t + 1)
        (by simp only [List.length_cons] at hlen ⊢; omega) (by simp)]
      have hfmt : format_cell a (q * W + t) W = [cellChar a] := by
        simp only [format_cell]
        rw [if_neg hmod]
        cases a <;> rfl
      rw [hfmt]
      rfl

/-- Rendering whole rows: a cell vector of exactly `h` rows, starting
at a row boundary, renders to `h` rows of `W` characters plus a
newline each. -/
theorem render_rows (W : Nat) (hW : 0 < W) :
    ∀ (h : Nat) (cs : List Bool) (q : Nat), cs.length = W * h →
      ((List.enumFrom (q * W) cs).map
        (fun p => format_cell p.2 p.1 W)).flatten
        = (List.range h).flatMap (fun y =>
            (List.range W).map
              (fun x => cellChar (cs.getD (y * W + x) false)) ++ ['\n']) := by
  intro h
  induction h with
  | zero =>
    intro cs q hlen
    have h0 : cs = [] := by
      apply List.eq_nil_of_length_eq_zero
      rw [hlen, Nat.mul_zero]
    rw [h0]
    rfl
  | succ h ih =>
    intro cs q hlen
    have hWlen : W ≤ cs.length := by
      rw [hlen, Nat.mul_succ]
      omega
    have htake : (cs.take W).length = W := by
      rw [List.length_take]
      omega
    have hne : cs.take W ≠ [] := by
      apply List.ne_nil_of_length_pos
      omega
    conv_lhs => rw [← List.take_append_drop W cs]
    rw [List.enumFrom_append, List.map_append, List.flatten_append, htake]
    have hrow := row_render W (cs.take W) q 0 (by omega) hne
    rw [Nat.add_zero] at hrow
    rw [hrow]
    have hdrop : (cs.drop W).length = W * h := by
      rw [List.length_drop, hlen, Nat.mul_succ]
      omega
    have hstart : q * W + W = (q + 1) * W := by ring
    rw [hstart, ih (cs.drop W) (q + 1) hdrop]
    rw [List.range_succ_eq_map, List.flatMap_cons, List.flatMap_map]
    congr 1
    · congr 1
      rw [map_getD_range (cs.take W) cellChar, htake]
      apply List.map_congr_left
      intro x hx
      rw [List.mem_range] at hx
      rw [Nat.zero_mul, Nat.zero_add]
      congr 1
      rw [List.getD_eq_getElem?_getD, List.getD_eq_getElem?_getD,
        List.getElem?_take_of_lt hx]
    · congr 1
      funext y
      congr 1
      apply List.map_congr_left
      intro x _
      congr 1
      rw [List.getD_eq_getElem?_getD, List.getD_eq_getElem?_getD,
        List.getElem?_drop]
      congr 1
      rw [Nat.succ_mul]
      ring_nf

/-- C7: rendering a universe of positive width produces exactly the
spec's text block: `height` rows, each exactly `width` cell characters
(`X` alive, space dead, in row-major position) followed by one newline
(the final row included), for a total length of
`width * height + height`. -/
theorem render_matches_spec (u : Universe) (hW : 0 < u.width)
    (hlen : u.cells.length = u.width * u.height) :
    u.render = renderSpec u ∧
    u.render.length = u.width * u.height + u.height := by
  have hmain := render_rows u.width hW u.height u.cells 0 (by rw [hlen])
  rw [Nat.zero_mul] at hmain
  have hrender : u.render = renderSpec u := by
    rw [Universe.render, renderSpec]
    exact hmain
  refine ⟨hrender, ?_⟩
  rw [hrender, renderSpec]
  rw [show (List.range u.height).flatMap (fun y =>
      (List.range u.width).map
        (fun x => cellChar (u.cells.getD (y * u.width + x) false)) ++ ['\n']) =
      ((List.range u.height).map (fun y =>
        (List.range u.width).map
          (fun x => cellChar (u.cells.getD (y * u.width + x) false)) ++
            ['\n'])).flatten from rfl]
  rw [List.length_flatten, List.map_map]
  have hconst : ((fun l : List Char => l.length) ∘ fun y =>
      (List.range u.width).map
        (fun x => cellChar (u.cells.getD (y * u.width + x) false)) ++ ['\n']) =
      fun _ : Nat => u.width + 1 := by
    funext y
    simp
  rw [hconst]
  simp [List.sum_replicate, Nat.mul_succ, Nat.mul_comm, List.map_const]

/-- Witness for C7 at the concrete 2x2 universe. -/
theorem render_matches_spec_witness :
    0 < uBlock22.width ∧
    uBlock22.cells.length = uBlock22.width * uBlock22.height ∧
    (uBlock22.render = renderSpec uBlock22 ∧
      uBlock22.render.length = uBlock22.width * uBlock22.height + uBlock22.height) :=
  ⟨by decide, by decide, render_matches_spec uBlock22 (by decide) (by decide)⟩

end Congol
